import Mathlib

/-!
Verification of the `stash` terminal application: a shallow embedding of the
action-dispatch event loop (`src/app.rs`), the key-chord resolution logic, the
WebDriver session teardown path, and the view components
(`src/components/login.rs`, `login_splash.rs`, `login_gauge.rs`).
-/

namespace Stash

/-- Key events, abstracted: the resolver only ever compares them for equality
(`crossterm::event::KeyEvent` is used solely as a `HashMap` key in `app.rs`). -/
abbrev Key := Nat

/-- Modelled from the spec: the `Action` enum (`src/action.rs` is not part of
the provided sources; spec section 3 fixes the closed variant set
`Tick`, `Render`, `Resize(w,h)`, `Quit`, `Suspend`, `Resume`,
`Message(string→string mapping)`, `Error(string)`). The string-keyed mapping of
`Message` is modelled as an association list. -/
inductive Action where
  | tick
  | render
  | resize (w h : Nat)
  | quit
  | suspend
  | resume
  | message (map : List (String × String))
  | error (msg : String)
  deriving DecidableEq, Repr

/-- The keybinding table for the active mode: `HashMap<Vec<KeyEvent>, Action>`
from `config.keybindings.get(&mode)`, modelled as an association list keyed by
key-event sequences. -/
abbrev Keymap := List (List Key × Action)

/-- `keymap.get(&seq)` on the per-mode `HashMap`. -/
def lookupSeq (km : Keymap) (s : List Key) : Option Action :=
  (km.find? (fun p => p.1 = s)).map (·.2)

/-- The `tui::Event::Key(key)` branch of `App::run` (`src/app.rs` lines
93-110): first try the one-element sequence `[k]`; if bound, emit that action
and leave `last_tick_key_events` untouched; otherwise push `k` onto
`last_tick_key_events` and try the whole accumulated sequence; emit on a match.
In no branch is the accumulated buffer cleared. Returns the new buffer and the
action sent to `action_tx`, if any. -/
def handleKey (km : Keymap) (buf : List Key) (k : Key) : List Key × Option Action :=
  match lookupSeq km [k] with
  | some a => (buf, some a)
  | none =>
    let buf' := buf ++ [k]
    match lookupSeq km buf' with
    | some a => (buf', some a)
    | none => (buf', none)

/-- Feed a sequence of key events through `handleKey`, collecting every action
sent. -/
def feedKeys (km : Keymap) (buf : List Key) : List Key → List Key × List Action
  | [] => (buf, [])
  | k :: ks =>
    let (buf', oa) := handleKey km buf k
    let (buf'', as) := feedKeys km buf' ks
    (buf'', (oa.toList) ++ as)

/-- An input to the chord machinery: either a key press (handled at event
classification time) or a dispatched `Tick` action (whose drain-phase handler,
`src/app.rs` lines 125-127, runs `last_tick_key_events.drain(..)`). -/
inductive ChordInput where
  | key (k : Key)
  | tickClear
  deriving DecidableEq, Repr

/-- One chord-relevant step: a key press goes through `handleKey`; a `Tick`
empties the buffer and emits nothing. -/
def stepChord (km : Keymap) (buf : List Key) : ChordInput → List Key × Option Action
  | .key k => handleKey km buf k
  | .tickClear => ([], none)

/-- Feed a mixed sequence of key presses and `Tick` clears. -/
def feedChordInputs (km : Keymap) (buf : List Key) :
    List ChordInput → List Key × List Action
  | [] => (buf, [])
  | i :: is =>
    let (buf', oa) := stepChord km buf i
    let (buf'', as) := feedChordInputs km buf' is
    (buf'', (oa.toList) ++ as)

/-! ## The event loop (`App::run`, `src/app.rs` lines 120-181)

Components are abstracted to their observable interface as used by the drain:
`update : Action → Option Action` (the returned action is sent to `action_tx`)
and a draw outcome (`draw` either succeeds or yields an error value `e`, in
which case the loop sends `Action::Error("Failed to draw: " ++ e)`). -/

/-- A registered component, as the drain loop observes it. -/
structure Comp where
  update : Action → Option Action
  drawErr : Option String

/-- Observable events of one run of the loop, in order of occurrence:
dequeuing an action, the synchronous `close_web_client` teardown call inside
the `Quit` arm, a `component.draw` invocation, a `component.update`
invocation, and the final `tui.stop` / `break` of the quit path. -/
inductive Event where
  | dequeued (a : Action)
  | teardown
  | drew (i : Nat)
  | updated (i : Nat) (a : Action)
  | stopped
  deriving DecidableEq, Repr

/-- The mutable state the drain loop touches: the pending action queue (the
unbounded mpsc channel, FIFO), the `should_quit` and `should_suspend` flags,
`last_tick_key_events`, and the trace of observable events so far. -/
structure LoopState where
  queue : List Action
  shouldQuit : Bool
  shouldSuspend : Bool
  lastTickKeyEvents : List Key
  trace : List Event
  deriving DecidableEq, Repr

/-- The draw pass of the `Resize`/`Render` arms (`src/app.rs` lines 136-161):
iterate the components in registration order starting at index `i`; every
component's `draw` is invoked; a failure sends
`Action::Error("Failed to draw: " ++ e)` and the iteration continues. -/
def drawPass (cs : List Comp) (i : Nat) (st : LoopState) : LoopState :=
  match cs with
  | [] => st
  | c :: rest =>
    let st' := { st with
      trace := st.trace ++ [Event.drew i]
      queue := st.queue ++ (match c.drawErr with
        | some e => [Action.error ("Failed to draw: " ++ e)]
        | none => []) }
    drawPass rest (i + 1) st'

/-- The `match action` arm of the drain (`src/app.rs` lines 124-162):
`Tick` drains `last_tick_key_events`; `Quit` sets `should_quit` and
synchronously awaits `close_web_client` (the teardown event); `Suspend` and
`Resume` set/clear `should_suspend`; `Resize` and `Render` run a draw pass;
everything else falls through. -/
def builtinStep (cs : List Comp) (st : LoopState) : Action → LoopState
  | .tick => { st with lastTickKeyEvents := [] }
  | .quit => { st with shouldQuit := true, trace := st.trace ++ [Event.teardown] }
  | .suspend => { st with shouldSuspend := true }
  | .resume => { st with shouldSuspend := false }
  | .resize _ _ => drawPass cs 0 st
  | .render => drawPass cs 0 st
  | _ => st

/-- The unconditional forwarding after the arm (`src/app.rs` lines 163-167):
every component's `update` receives the action; a returned action is sent to
`action_tx`, i.e. appended to the queue. -/
def updateAll (cs : List Comp) (i : Nat) (a : Action) (st : LoopState) : LoopState :=
  match cs with
  | [] => st
  | c :: rest =>
    let st' := { st with
      trace := st.trace ++ [Event.updated i a]
      queue := st.queue ++ (c.update a).toList }
    updateAll rest (i + 1) a st'

/-- Processing of one dequeued action: built-in arm, then the forwarding to
every component. -/
def processAction (cs : List Comp) (st : LoopState) (a : Action) : LoopState :=
  updateAll cs 0 a (builtinStep cs st a)

/-- The drain loop `while let Ok(action) = action_rx.try_recv()`: dequeue from
the front, process, repeat until the queue is empty. Fuel bounds the number of
iterations; `none` means the fuel ran out before the queue emptied. -/
def drain (cs : List Comp) : Nat → LoopState → Option LoopState
  | fuel, st =>
    match st.queue with
    | [] => some st
    | a :: rest =>
      match fuel with
      | 0 => none
      | fuel' + 1 =>
        let st' : LoopState :=
          { st with queue := rest, trace := st.trace ++ [Event.dequeued a] }
        drain cs fuel' (processAction cs st' a)

/-- The tail of a loop iteration (`src/app.rs` lines 168-180): after the drain,
a suspended loop releases the terminal and enqueues `Resume`; a quitting loop
stops the terminal and breaks — modelled as the terminal `stopped` event. -/
def loopTail (st : LoopState) : LoopState :=
  if st.shouldSuspend then { st with queue := st.queue ++ [Action.resume] }
  else if st.shouldQuit then { st with trace := st.trace ++ [Event.stopped] }
  else st

/-- One full loop iteration from the point where the queue has been filled:
drain it, then run the suspend/quit tail. -/
def runIteration (cs : List Comp) (fuel : Nat) (st : LoopState) : Option LoopState :=
  (drain cs fuel st).map loopTail

/-- The loop state at the start of a drain: a freshly filled queue, clear
flags, empty trace. -/
def initState (q : List Action) : LoopState :=
  { queue := q, shouldQuit := false, shouldSuspend := false,
    lastTickKeyEvents := [], trace := [] }

/-! ## Session teardown (`App::close_web_client`, `src/app.rs` lines 227-243)

`self.web_client : Option<Arc<Mutex<Option<Client>>>>` is modelled as
`Option (Option WebClient)`: the outer `Option` is the field (`none` = the
spec's `Absent` state), the inner one the mutex-guarded slot (`some (some c)` =
`Connected`, `some none` = `Closed`). The only observable behaviour of the
`fantoccini::Client` here is whether `client.close().await` succeeds. -/

/-- A connected WebDriver client, reduced to the outcome of its `close()`. -/
structure WebClient where
  closeOk : Bool
  deriving DecidableEq, Repr

/-- Side effects `close_web_client` can perform, in order: the graceful
`client.close().await` attempt (recording whether it succeeded), the
`eprintln!` report of a close failure, and the unconditional
`pkill geckodriver`. -/
inductive TeardownEffect where
  | closeAttempt (ok : Bool)
  | reportCloseFailure
  | killGeckodriver
  deriving DecidableEq, Repr

/-- `App::close_web_client`: if the field is `Some`, lock the mutex and `take`
the inner client; if one was present, attempt a graceful close, reporting (not
escalating) a failure; then — on every path, regardless of session state —
run `pkill geckodriver`; return `Ok(())`. The result is the new `web_client`
state, the ordered effect list, and whether the call returned `Ok` (`true`:
it always does, since a close failure is only reported). -/
def closeWebClient (wc : Option (Option WebClient)) :
    Option (Option WebClient) × List TeardownEffect × Bool :=
  match wc with
  | some (some c) =>
    (some none,
      TeardownEffect.closeAttempt c.closeOk ::
        (if c.closeOk then [] else [TeardownEffect.reportCloseFailure]) ++
          [TeardownEffect.killGeckodriver],
      true)
  | some none => (some none, [TeardownEffect.killGeckodriver], true)
  | none => (none, [TeardownEffect.killGeckodriver], true)

/-! ## `LoginComponent` (`src/components/login.rs`) -/

/-- The seven ASCII-art animation frames built in `LoginComponent::new` (and,
identically, in `LoginSplash::new`). -/
def logoFrames : List String :=
  [r"     __
    / /
   / / 
  / /  
 / /   
/_/    ",
   r"     __ __
   _/ // /
  / __/ / 
 (_  ) /  
/  _/ /   
/_//_/    ",
   r"     __ __  __
   _/ // /_/ /
  / __/ __/ / 
 (_  ) /_/ /  
/  _/\__/ /   
/_/    /_/    ",
   r"     __ __        __
   _/ // /_____ _/ /
  / __/ __/ __ `/ / 
 (_  ) /_/ /_/ / /  
/  _/\__/\__,_/ /   
/_/          /_/    ",
   r"     __ __             __
   _/ // /_____ ______/ /
  / __/ __/ __ `/ ___/ / 
 (_  ) /_/ /_/ (__  ) /  
/  _/\__/\__,_/____/ /   
/_/               /_/    ",
   r"     __ __             __    __
   _/ // /_____ ______/ /_  / /
  / __/ __/ __ `/ ___/ __ \/ / 
 (_  ) /_/ /_/ (__  ) / / / /  
/  _/\__/\__,_/____/_/ /_/ /   
/_/                     /_/    ",
   r"     __ __             __      
   _/ // /_____ ______/ /_     
  / __/ __/ __ `/ ___/ __ \    
 (_  ) /_/ /_/ (__  ) / / /    
/  _/\__/\__,_/____/_/ /_/     
/_/                            "]

/-- The state of `LoginComponent` touched by `update`: the splash fields
(`counter`, `logo_frames`, `is_animated`, `loading_messages`) and the gauge
fields (`progress`, `total_loading_messages`). `progress: f64` only ever holds
exact values (`0.0`, `1.0`, or `count/3` assigned in one division), modelled
as the corresponding rational. -/
structure LoginState where
  counter : Nat
  logoFrames : List String
  isAnimated : Bool
  loadingMessages : List String
  progress : ℚ
  totalLoadingMessages : Nat
  deriving DecidableEq, Repr

/-- `LoginComponent::new` (`src/components/login.rs` lines 31-89). -/
def loginNew : LoginState :=
  { counter := 0, logoFrames := logoFrames, isAnimated := true,
    loadingMessages := [], progress := 0, totalLoadingMessages := 3 }

/-- `LoginComponent::update_progress` (`src/components/login.rs` lines
98-105): set `progress` to `1.0` once the message count reaches
`total_loading_messages`, else to `count / total`. -/
def updateProgress (s : LoginState) : LoginState :=
  let messageCount := s.loadingMessages.length
  if messageCount ≥ s.totalLoadingMessages then { s with progress := 1 }
  else
    { s with progress := (messageCount : ℚ) / (s.totalLoadingMessages : ℚ) }

/-- `LoginComponent::update` (`src/components/login.rs` lines 118-137): on
`Tick`, advance the animation counter while `is_animated`, clamping it to
`logo_frames.len() - 1` and stopping the animation when it would run past the
end; on `Message`, push the `"startup"` entry (if any) onto
`loading_messages` and recompute the progress. Always returns `Ok(None)`. -/
def loginUpdate (s : LoginState) (a : Action) : LoginState :=
  match a with
  | .tick =>
    if s.isAnimated then
      let c := s.counter + 1
      if c ≥ s.logoFrames.length then
        { s with counter := s.logoFrames.length - 1, isAnimated := false }
      else
        { s with counter := c }
    else s
  | .message map =>
    match map.lookup "startup" with
    | some m =>
      updateProgress { s with loadingMessages := s.loadingMessages ++ [m] }
    | none => s
  | _ => s

/-- Fold a list of actions through `loginUpdate`. -/
def loginRun (acts : List Action) (s : LoginState) : LoginState :=
  acts.foldl loginUpdate s

/-! ## `LoginSplash` (`src/components/login_splash.rs`) -/

/-- The state of `LoginSplash` touched by `update`: like `LoginComponent`
without the gauge fields. -/
structure SplashState where
  counter : Nat
  logoFrames : List String
  isAnimated : Bool
  loadingMessages : List String
  deriving DecidableEq, Repr

/-- `LoginSplash::new` (`src/components/login_splash.rs` lines 29-97); the
frame list is character-for-character the one in `LoginComponent::new`. -/
def splashNew : SplashState :=
  { counter := 0, logoFrames := logoFrames, isAnimated := true,
    loadingMessages := [] }

/-- `LoginSplash::update` (`src/components/login_splash.rs` lines 103-122):
the same `Tick` arm as `LoginComponent::update`; the `Message` arm pushes the
`"startup"` entry without any progress bookkeeping. -/
def splashUpdate (s : SplashState) (a : Action) : SplashState :=
  match a with
  | .tick =>
    if s.isAnimated then
      let c := s.counter + 1
      if c ≥ s.logoFrames.length then
        { s with counter := s.logoFrames.length - 1, isAnimated := false }
      else
        { s with counter := c }
    else s
  | .message map =>
    match map.lookup "startup" with
    | some m => { s with loadingMessages := s.loadingMessages ++ [m] }
    | none => s
  | _ => s

/-- Fold a list of actions through `splashUpdate`. -/
def splashRun (acts : List Action) (s : SplashState) : SplashState :=
  acts.foldl splashUpdate s

/-! ## `LoginGauge` (`src/components/login_gauge.rs`)

`LoginGauge::update` performs `self.progress += 0.1` on an `f64`. To stay
faithful to the executable we model IEEE-754 binary64 arithmetic exactly on
the range the gauge uses: every nonnegative finite double is a dyadic
rational `num / 2^dexp`, and addition rounds the exact dyadic sum to 53
significant bits, ties to even. The values here stay inside `[0, 2]` — far
from overflow, subnormals and the exponent limits — where this is exactly
the double-precision semantics. -/

/-- A nonnegative binary64 value, represented exactly as the dyadic rational
`num / 2^dexp`. -/
structure F64 where
  num : Nat
  dexp : Nat
  deriving DecidableEq, Repr

/-- Value comparison `x < y` of the dyadic rationals, by cross
multiplication. -/
def F64.lt (x y : F64) : Bool :=
  x.num * 2 ^ y.dexp < y.num * 2 ^ x.dexp

/-- `0.0`. -/
def F64.zero : F64 := ⟨0, 0⟩

/-- `1.0`. -/
def F64.one : F64 := ⟨1, 0⟩

/-- The exact (unrounded) sum of two dyadic rationals. -/
def addExact (x y : F64) : F64 :=
  ⟨x.num * 2 ^ y.dexp + y.num * 2 ^ x.dexp, x.dexp + y.dexp⟩

/-- The number of binary digits of `n` (0 for 0), fuel-bounded so that it
reduces by plain arithmetic. -/
def bitLenAux : Nat → Nat → Nat
  | 0, _ => 0
  | fuel + 1, n => if n = 0 then 0 else bitLenAux fuel (n / 2) + 1

/-- Bit length for numbers below `2^256`, ample for the range used here. -/
def bitLen (n : Nat) : Nat := bitLenAux 256 n

/-- Round a dyadic rational to 53 significant bits, ties to even — binary64
rounding for values whose magnitude stays below `2^53`. -/
def roundF64 (x : F64) : F64 :=
  if x.num = 0 then ⟨0, 0⟩
  else
    let bits := bitLen x.num
    if bits ≤ 53 then x
    else
      let shift := bits - 53
      let q := x.num / 2 ^ shift
      let r := x.num % 2 ^ shift
      let half := 2 ^ (shift - 1)
      let q' := if r < half then q
        else if half < r then q + 1
        else if q % 2 = 0 then q else q + 1
      ⟨q', x.dexp - shift⟩

/-- Binary64 addition of nonnegative doubles: round the exact sum. -/
def fpAdd (x y : F64) : F64 := roundF64 (addExact x y)

/-- The double literal `0.1`: `0x3FB999999999999A`, i.e.
`3602879701896397 × 2⁻⁵⁵`. -/
def oneTenthF64 : F64 := ⟨3602879701896397, 55⟩

/-- `LoginGauge::update` (`src/components/login_gauge.rs` lines 44-53): on a
`Message` whose map has a `"startup"` entry, execute
`if self.progress < 1.0 { self.progress += 0.1 }` in binary64. The gauge's
only state is `progress: f64` (its `config` is untouched by `update`). -/
def gaugeUpdate (p : F64) (a : Action) : F64 :=
  match a with
  | .message map =>
    if (map.lookup "startup").isSome then
      if F64.lt p F64.one then fpAdd p oneTenthF64 else p
    else p
  | _ => p

/-- Fold a list of actions through `gaugeUpdate`; `LoginGauge::new` starts at
`progress = 0.0`. -/
def gaugeRun (acts : List Action) (p : F64) : F64 :=
  acts.foldl gaugeUpdate p

/-! ## Concrete instances used in scenario theorems -/

/-- The event trace of a drain run started on queue `q` (empty if the fuel
runs out before the queue drains). -/
def drainTrace (cs : List Comp) (fuel : Nat) (q : List Action) : List Event :=
  ((drain cs fuel (initState q)).map LoopState.trace).getD []

/-- A component whose `update` answers a `Message` action with an `Error`
reaction (the Component contract allows any such reaction). -/
def compReact : Comp :=
  { update := fun a => match a with
      | .message _ => some (.error "reacted")
      | _ => none,
    drawErr := none }

/-- Two components for the draw-pass scenario: the first one's `draw` fails
with `"boom"`, the second one's succeeds. -/
def drawDemoComps : List Comp :=
  [{ update := fun _ => none, drawErr := some "boom" },
   { update := fun _ => none, drawErr := none }]

/-- Three registered components whose `update` always returns `None` — the
behaviour of every component in this repository (`LoginComponent`,
`LoginSplash`, `LoginGauge`, `Home` all end `update` with `Ok(None)`). -/
def quietComps : List Comp :=
  List.replicate 3 { update := fun _ => none, drawErr := none }

/-! # Theorems -/

/-! ## Key-chord resolution lemmas -/

theorem handleKey_hit (km : Keymap) (buf : List Key) (k : Key) (a : Action)
    (h : lookupSeq km [k] = some a) : handleKey km buf k = (buf, some a) := by
  simp [handleKey, h]

theorem handleKey_multi (km : Keymap) (buf : List Key) (k : Key) (a : Action)
    (h1 : lookupSeq km [k] = none) (h2 : lookupSeq km (buf ++ [k]) = some a) :
    handleKey km buf k = (buf ++ [k], some a) := by
  simp [handleKey, h1, h2]

theorem handleKey_miss (km : Keymap) (buf : List Key) (k : Key)
    (h1 : lookupSeq km [k] = none) (h2 : lookupSeq km (buf ++ [k]) = none) :
    handleKey km buf k = (buf ++ [k], none) := by
  simp [handleKey, h1, h2]

theorem feedKeys_cons (km : Keymap) (p : List Key) (k : Key) (ks : List Key) :
    feedKeys km p (k :: ks) =
      ((feedKeys km (handleKey km p k).1 ks).1,
        (handleKey km p k).2.toList ++ (feedKeys km (handleKey km p k).1 ks).2) := by
  simp [feedKeys]

/-- Feeding keys none of which is singleton-bound, with every accumulated
lookup missing, appends them all to the buffer and emits nothing. -/
theorem feedKeys_silent (km : Keymap) (ks : List Key) :
    ∀ p, (∀ k ∈ ks, lookupSeq km [k] = none) →
      (∀ j, 0 < j → j ≤ ks.length → lookupSeq km (p ++ ks.take j) = none) →
      feedKeys km p ks = (p ++ ks, []) := by
  induction ks with
  | nil => intro p _ _; simp [feedKeys]
  | cons k ks ih =>
    intro p hs hp
    have h1 : lookupSeq km [k] = none := hs k (by simp)
    have h2 : lookupSeq km (p ++ [k]) = none := by
      simpa using hp 1 one_pos (by simp)
    rw [feedKeys_cons, handleKey_miss km p k h1 h2]
    have hrec := ih (p ++ [k]) (fun k' hk' => hs k' (by simp [hk']))
      (fun j hj hj' => by
        have := hp (j + 1) (Nat.succ_pos j) (by simpa using Nat.succ_le_succ hj')
        simpa [List.append_assoc] using this)
    simp [hrec]

/-- Feeding keys none of which is singleton-bound, where every proper
accumulated lookup misses but the full accumulated sequence is bound to `a`,
emits exactly `a` (at the last key) and leaves the full sequence in the
buffer. -/
theorem feedKeys_resolve (km : Keymap) (ks : List Key) (a : Action) :
    ∀ p, ks ≠ [] → (∀ k ∈ ks, lookupSeq km [k] = none) →
      (∀ j, 0 < j → j < ks.length → lookupSeq km (p ++ ks.take j) = none) →
      lookupSeq km (p ++ ks) = some a →
      feedKeys km p ks = (p ++ ks, [a]) := by
  induction ks with
  | nil => intro p h; exact absurd rfl h
  | cons k ks ih =>
    intro p _ hs hp hb
    have h1 : lookupSeq km [k] = none := hs k (by simp)
    cases ks with
    | nil =>
      have hb' : lookupSeq km (p ++ [k]) = some a := hb
      rw [feedKeys_cons, handleKey_multi km p k a h1 hb']
      simp [feedKeys]
    | cons k2 ks2 =>
      have h2 : lookupSeq km (p ++ [k]) = none := by
        simpa using hp 1 one_pos (by simp)
      rw [feedKeys_cons, handleKey_miss km p k h1 h2]
      have hrec := ih (p ++ [k]) (by simp)
        (fun k' hk' => hs k' (by simp [hk']))
        (fun j hj hj' => by
          have := hp (j + 1) (Nat.succ_pos j)
            (by simpa using Nat.succ_lt_succ hj')
          simpa [List.append_assoc] using this)
        (by simpa [List.append_assoc] using hb)
      simp [hrec]

/-- Any action emitted by `handleKey` is the binding of the singleton `[k]` or
of the accumulated sequence `buf ++ [k]`. -/
theorem handleKey_emits (km : Keymap) (buf : List Key) (k : Key) (b : Action)
    (h : (handleKey km buf k).2 = some b) :
    lookupSeq km [k] = some b ∨ lookupSeq km (buf ++ [k]) = some b := by
  cases h1 : lookupSeq km [k] with
  | some a =>
    rw [handleKey_hit km buf k a h1] at h
    left
    exact congrArg some (show a = b by simpa using h)
  | none =>
    cases h2 : lookupSeq km (buf ++ [k]) with
    | some a =>
      rw [handleKey_multi km buf k a h1 h2] at h
      right
      exact congrArg some (show a = b by simpa using h)
    | none =>
      rw [handleKey_miss km buf k h1 h2] at h
      simp at h

/-- `handleKey` grows the buffer by at most one key. -/
theorem handleKey_buf_len (km : Keymap) (buf : List Key) (k : Key) :
    (handleKey km buf k).1.length ≤ buf.length + 1 := by
  cases h1 : lookupSeq km [k] with
  | some a => rw [handleKey_hit km buf k a h1]; simp
  | none =>
    cases h2 : lookupSeq km (buf ++ [k]) with
    | some a => rw [handleKey_multi km buf k a h1 h2]; simp
    | none => rw [handleKey_miss km buf k h1 h2]; simp

/-- Every action emitted while feeding `ks` from buffer `p` is the binding of
some sequence of length between `1` and `p.length + ks.length`. -/
theorem feedKeys_emit_bound (km : Keymap) (ks : List Key) :
    ∀ p b, b ∈ (feedKeys km p ks).2 →
      ∃ s, lookupSeq km s = some b ∧ 1 ≤ s.length ∧
        s.length ≤ p.length + ks.length := by
  induction ks with
  | nil => intro p b hb; simp [feedKeys] at hb
  | cons k ks ih =>
    intro p b hb
    rw [feedKeys_cons] at hb
    rcases List.mem_append.mp hb with hb | hb
    · have hemit : (handleKey km p k).2 = some b := by
        cases hh : (handleKey km p k).2 with
        | none => rw [hh] at hb; simp at hb
        | some c =>
          rw [hh] at hb
          obtain rfl : b = c := by simpa using hb
          rfl
      rcases handleKey_emits km p k b hemit with h | h
      · refine ⟨[k], h, le_refl 1, ?_⟩
        simp only [List.length_cons, List.length_nil]
        omega
      · refine ⟨p ++ [k], h, ?_, ?_⟩ <;>
          simp only [List.length_append, List.length_cons,
            List.length_nil] <;> omega
    · rcases ih (handleKey km p k).1 b hb with ⟨s, hs, h1, h2⟩
      refine ⟨s, hs, h1, ?_⟩
      have := handleKey_buf_len km p k
      simp only [List.length_cons] at h2 ⊢
      omega

/-- A successful `lookupSeq` comes from an entry of the table. -/
theorem lookupSeq_mem (km : Keymap) (s : List Key) (b : Action)
    (h : lookupSeq km s = some b) : ∃ e ∈ km, e.1 = s ∧ e.2 = b := by
  unfold lookupSeq at h
  cases hf : km.find? (fun p => p.1 = s) with
  | none => rw [hf] at h; simp at h
  | some e =>
    rw [hf] at h
    refine ⟨e, List.mem_of_find?_eq_some hf, ?_, by simpa using h⟩
    have := List.find?_some hf
    simpa using this

/-- Feeding mapped key inputs is feeding the keys. -/
theorem feedChordInputs_keys (km : Keymap) (ks : List Key) :
    ∀ p, feedChordInputs km p (ks.map ChordInput.key) = feedKeys km p ks := by
  induction ks with
  | nil => intro p; rfl
  | cons k ks ih =>
    intro p
    simp only [List.map_cons, feedChordInputs, stepChord, feedKeys, ih]

theorem feedChordInputs_cons (km : Keymap) (p : List Key) (i : ChordInput)
    (is : List ChordInput) :
    feedChordInputs km p (i :: is) =
      ((feedChordInputs km (stepChord km p i).1 is).1,
        (stepChord km p i).2.toList ++
          (feedChordInputs km (stepChord km p i).1 is).2) := by
  simp [feedChordInputs]

/-- Counterexample for C7: the table binds the chord `[1, 2] ↦ Quit` but also
`[2] ↦ Quit`; feeding `1`, then `Tick`, then `2` yields `Quit` anyway (the
suffix resolves on its own). -/
theorem c7_tick_abandon_cex :
    lookupSeq [([1, 2], Action.quit), ([2], Action.quit)] [1, 2] =
        some Action.quit ∧
      Action.quit ∈
        (feedChordInputs [([1, 2], Action.quit), ([2], Action.quit)] []
          [ChordInput.key 1, ChordInput.tickClear, ChordInput.key 2]).2 := by
  decide

/-- C7 (amended): a `Tick` action always clears the in-progress chord buffer —
for a multi-key chord `k1,...,kn` (`n ≥ 2`) bound to action `a`, provided `a`
is bound to no other sequence of the table, feeding `k1`, then dispatching
`Tick`, then feeding `k2,...,kn` never yields `a`: every post-`Tick` lookup
sees a buffer rebuilt from at most `n - 1` keys, so the chord entry can no
longer match. -/
theorem c7_tick_clears_chord (km : Keymap) (k1 : Key) (rest : List Key)
    (a : Action) (hlen : 1 ≤ rest.length)
    (_hbound : lookupSeq km (k1 :: rest) = some a)
    (huniq : ∀ e ∈ km, e.2 = a → e.1 = k1 :: rest) :
    a ∉ (feedChordInputs km []
      (ChordInput.key k1 :: ChordInput.tickClear :: rest.map ChordInput.key)).2 := by
  intro hmem
  rw [feedChordInputs_cons] at hmem
  rw [show stepChord km [] (ChordInput.key k1) = handleKey km [] k1 from rfl]
    at hmem
  rw [feedChordInputs_cons] at hmem
  rw [show stepChord km (handleKey km [] k1).1 ChordInput.tickClear = ([], none)
    from rfl] at hmem
  rw [feedChordInputs_keys] at hmem
  simp only [Option.toList_none, List.nil_append, List.mem_append] at hmem
  rcases hmem with hm | hm
  · have hemit : (handleKey km [] k1).2 = some a := by
      cases hh : (handleKey km [] k1).2 with
      | none => rw [hh] at hm; simp at hm
      | some c =>
        rw [hh] at hm
        obtain rfl : a = c := by simpa using hm
        rfl
    have hk1 : lookupSeq km [k1] = some a := by
      rcases handleKey_emits km [] k1 a hemit with h | h
      · exact h
      · simpa using h
    obtain ⟨e, he, h1, h2⟩ := lookupSeq_mem km [k1] a hk1
    have hchord := huniq e he h2
    rw [hchord] at h1
    have : rest.length = 0 := by
      have := congrArg List.length h1
      simpa using this
    omega
  · obtain ⟨s, hs, hl1, hl2⟩ := feedKeys_emit_bound km rest [] a hm
    obtain ⟨e, he, h1, h2⟩ := lookupSeq_mem km s a hs
    have hchord := huniq e he h2
    rw [hchord] at h1
    have := congrArg List.length h1
    simp at this hl2
    omega

/-- Witness for C7: chord `[1, 2] ↦ Quit` alone in the table — `1`, `Tick`,
`2` yields nothing. -/
theorem c7_tick_clears_chord_witness :
    Action.quit ∉ (feedChordInputs [([1, 2], Action.quit)] []
      (ChordInput.key 1 :: ChordInput.tickClear ::
        ([2] : List Key).map ChordInput.key)).2 :=
  c7_tick_clears_chord [([1, 2], Action.quit)] 1 [2] Action.quit
    (by decide) (by decide) (by decide)

/-- Counterexample for C6: with both `[1] ↦ Suspend` and the chord
`[1, 2] ↦ Quit` bound, feeding exactly `1, 2` (no intervening `Tick`) never
yields `Quit` (the single-key binding for `1` fires instead and `1` is never
buffered), and the strict prefix `1` yields an action. -/
theorem c6_chord_cex :
    lookupSeq [([1], Action.suspend), ([1, 2], Action.quit)] [1, 2] =
        some Action.quit ∧
      Action.quit ∉
        (feedKeys [([1], Action.suspend), ([1, 2], Action.quit)] [] [1, 2]).2 ∧
      (feedKeys [([1], Action.suspend), ([1, 2], Action.quit)] [] [1]).2 ≠ [] := by
  decide

/-- C6 (amended): for key-events `k1,...,kn` (`n ≥ 2`) bound as a multi-key
chord to action `a`, provided additionally that no `ki` is singleton-bound and
no strict prefix `k1,...,ki` (`0 < i < n`) is bound, feeding exactly that
sequence from an empty buffer (with no intervening `Tick`) yields exactly `a`,
and feeding any strict prefix yields no action. -/
theorem c6_multi_key_chord (km : Keymap) (ks : List Key) (a : Action)
    (hlen : 2 ≤ ks.length)
    (hbound : lookupSeq km ks = some a)
    (hsingle : ∀ k ∈ ks, lookupSeq km [k] = none)
    (hpre : ∀ i : Fin ks.length, 0 < i.val → lookupSeq km (ks.take i.val) = none) :
    feedKeys km [] ks = (ks, [a]) ∧
      ∀ i : Fin ks.length, (feedKeys km [] (ks.take i.val)).2 = [] := by
  constructor
  · have hne : ks ≠ [] := by
      intro h
      rw [h] at hlen
      simp at hlen
    have := feedKeys_resolve km ks a [] hne hsingle
      (fun j hj hj' => by simpa using hpre ⟨j, hj'⟩ hj)
      (by simpa using hbound)
    simpa using this
  · intro i
    have hsilent := feedKeys_silent km (ks.take i.val) []
      (fun k hk => hsingle k (List.mem_of_mem_take hk))
      (fun j hj hj' => by
        have hjlen : j ≤ i.val := by
          simpa [Nat.le_min] using hj'
        have hjlt : j < ks.length := lt_of_le_of_lt hjlen i.isLt
        have := hpre ⟨j, hjlt⟩ hj
        simpa [List.take_take, Nat.min_eq_left hjlen] using this)
    simp [hsilent]

/-- Witness for C6: the chord `[1, 2, 3] ↦ Quit` alone in the table — feeding
`1, 2, 3` yields exactly `Quit`, and every strict prefix yields nothing. -/
theorem c6_multi_key_chord_witness :
    feedKeys [([1, 2, 3], Action.quit)] [] [1, 2, 3] = ([1, 2, 3], [Action.quit]) ∧
      ∀ i : Fin ([1, 2, 3] : List Key).length,
        (feedKeys [([1, 2, 3], Action.quit)] [] (([1, 2, 3] : List Key).take i.val)).2 = [] :=
  c6_multi_key_chord [([1, 2, 3], Action.quit)] [1, 2, 3] Action.quit
    (by decide) (by decide) (by decide) (by decide)

/-- C8: single-key bindings take precedence over multi-key interpretation —
whenever the one-element sequence `[k]` is bound in the active mode's table,
pressing `k` resolves immediately to the bound action, whatever the contents
of the in-progress multi-key buffer (which is left untouched). -/
theorem c8_single_key_precedence (km : Keymap) (buf : List Key) (k : Key)
    (a : Action) (h : lookupSeq km [k] = some a) :
    handleKey km buf k = (buf, some a) := by
  simp [handleKey, h]

/-- Witness for C8: with `[5] ↦ Quit` bound and the buffer holding `[3, 4]`,
pressing `5` resolves to `Quit` at once. -/
theorem c8_single_key_precedence_witness :
    handleKey [([5], Action.quit)] [3, 4] 5 = ([3, 4], some Action.quit) :=
  c8_single_key_precedence [([5], Action.quit)] [3, 4] 5 Action.quit (by decide)

/-- Counterexample for C3: with `[1, 2] ↦ Quit` bound, pressing `2` with the
buffer holding `[1]` resolves the accumulated sequence to `Quit`, yet the
pending buffer is `[1, 2]` afterwards, not empty — the code never clears
`last_tick_key_events` on a successful resolution. -/
theorem c3_reset_on_resolve_cex :
    (handleKey [([1, 2], Action.quit)] [1] 2).2 = some Action.quit ∧
      (handleKey [([1, 2], Action.quit)] [1] 2).1 ≠ [] := by
  decide

/-- C3 (amended): the pending key-sequence buffer is never reset by a
successful resolution — a single-key match leaves it unchanged and any other
key press appends the key (whether or not the accumulated sequence matches);
the buffer is emptied only by the `Tick` handler. -/
theorem c3_buffer_only_reset_by_tick (km : Keymap) (buf : List Key) (k : Key) :
    ((handleKey km buf k).1 =
      if (lookupSeq km [k]).isSome then buf else buf ++ [k]) ∧
      (stepChord km buf ChordInput.tickClear).1 = [] := by
  refine ⟨?_, rfl⟩
  unfold handleKey
  cases h : lookupSeq km [k] with
  | some a => simp
  | none =>
    cases h2 : lookupSeq km (buf ++ [k]) <;> simp [h2]

/-- Counterexample for C2: starting from a `Connected` session, tearing down
twice still attempts the `pkill geckodriver` side effect on the second call —
`close_web_client` runs it unconditionally on every invocation. -/
theorem c2_redundant_kill_cex :
    TeardownEffect.killGeckodriver ∈
      (closeWebClient (closeWebClient (some (some ⟨true⟩))).1).2.1 := by
  decide

/-- C2 (amended): `teardown()` is idempotent in its observable session state —
for any state, a second call leaves the state exactly where the first call left
it (`Closed` when a session existed) and reports success; calling it on a
`Closed` or `Absent` session leaves the state unchanged and reports success.
However, every call — second calls and calls on `Closed`/`Absent` sessions
included — unconditionally attempts the process-kill by name (and nothing
else: the second call makes no session-close attempt). -/
theorem c2_teardown_idempotent (wc : Option (Option WebClient)) :
    (closeWebClient (closeWebClient wc).1).1 = (closeWebClient wc).1 ∧
      (closeWebClient (closeWebClient wc).1).2.2 = true ∧
      (closeWebClient (closeWebClient wc).1).2.1 =
        [TeardownEffect.killGeckodriver] ∧
      (closeWebClient (some none)).1 = some none ∧
      (closeWebClient (some none)).2.2 = true ∧
      (closeWebClient none).1 = none ∧
      (closeWebClient none).2.2 = true := by
  rcases wc with _ | wc
  · simp [closeWebClient]
  · rcases wc with _ | c <;> simp [closeWebClient]

/-! ## Splash-animation counter invariants -/

theorem logoFrames_length : logoFrames.length = 7 := rfl

/-- `updateProgress` touches only the `progress` field. -/
theorem updateProgress_fields (s : LoginState) :
    (updateProgress s).counter = s.counter ∧
      (updateProgress s).logoFrames = s.logoFrames ∧
      (updateProgress s).isAnimated = s.isAnimated ∧
      (updateProgress s).loadingMessages = s.loadingMessages ∧
      (updateProgress s).totalLoadingMessages = s.totalLoadingMessages := by
  by_cases h : s.loadingMessages.length ≥ s.totalLoadingMessages <;>
    simp [updateProgress, h]

/-- The inductive invariant for `LoginComponent`: the frame list is the
constructed seven-frame list and the counter stays strictly below `7`. -/
def LoginInv (s : LoginState) : Prop :=
  s.logoFrames = logoFrames ∧ s.counter < 7

theorem loginInv_new : LoginInv loginNew :=
  ⟨rfl, by simp [loginNew]⟩

theorem loginInv_step (s : LoginState) (a : Action) (h : LoginInv s) :
    LoginInv (loginUpdate s a) := by
  obtain ⟨hf, hc⟩ := h
  have hlen : s.logoFrames.length = 7 := by rw [hf]; rfl
  cases a with
  | tick =>
    simp only [loginUpdate]
    by_cases ha : s.isAnimated = true
    · rw [if_pos ha]
      by_cases hge : s.counter + 1 ≥ s.logoFrames.length
      · rw [if_pos hge]
        exact ⟨hf, by show s.logoFrames.length - 1 < 7; rw [hlen]; omega⟩
      · rw [if_neg hge]
        rw [hlen] at hge
        exact ⟨hf, by show s.counter + 1 < 7; omega⟩
    · rw [if_neg ha]
      exact ⟨hf, hc⟩
  | message map =>
    simp only [loginUpdate]
    cases map.lookup "startup" with
    | none => exact ⟨hf, hc⟩
    | some m =>
      simp only
      obtain ⟨h1, h2, -⟩ :=
        updateProgress_fields { s with loadingMessages := s.loadingMessages ++ [m] }
      exact ⟨by rw [h2]; exact hf, by rw [h1]; exact hc⟩
  | _ => exact ⟨hf, hc⟩

theorem loginInv_run (acts : List Action) :
    ∀ s, LoginInv s → LoginInv (loginRun acts s) := by
  induction acts with
  | nil => intro s h; exact h
  | cons a acts ih =>
    intro s h
    exact ih (loginUpdate s a) (loginInv_step s a h)

/-- Once the login counter sits at `6`, no further update moves it. -/
theorem loginCounter_frozen_step (s : LoginState) (a : Action)
    (hinv : LoginInv s) (h6 : s.counter = 6) :
    (loginUpdate s a).counter = 6 := by
  obtain ⟨hf, -⟩ := hinv
  have hlen : s.logoFrames.length = 7 := by rw [hf]; rfl
  cases a with
  | tick =>
    simp only [loginUpdate]
    by_cases ha : s.isAnimated = true
    · rw [if_pos ha]
      by_cases hge : s.counter + 1 ≥ s.logoFrames.length
      · rw [if_pos hge]
        show s.logoFrames.length - 1 = 6
        rw [hlen]
      · rw [if_neg hge]
        rw [hlen, h6] at hge
        omega
    · rw [if_neg ha]
      exact h6
  | message map =>
    simp only [loginUpdate]
    cases map.lookup "startup" with
    | none => exact h6
    | some m =>
      simp only
      obtain ⟨h1, -⟩ :=
        updateProgress_fields { s with loadingMessages := s.loadingMessages ++ [m] }
      rw [h1]
      exact h6
  | _ => exact h6

theorem loginCounter_frozen (acts : List Action) :
    ∀ s, LoginInv s → s.counter = 6 → (loginRun acts s).counter = 6 := by
  induction acts with
  | nil => intro s _ h6; exact h6
  | cons a acts ih =>
    intro s hinv h6
    exact ih (loginUpdate s a) (loginInv_step s a hinv)
      (loginCounter_frozen_step s a hinv h6)

/-- The same invariant for `LoginSplash`. -/
def SplashInv (s : SplashState) : Prop :=
  s.logoFrames = logoFrames ∧ s.counter < 7

theorem splashInv_new : SplashInv splashNew :=
  ⟨rfl, by simp [splashNew]⟩

theorem splashInv_step (s : SplashState) (a : Action) (h : SplashInv s) :
    SplashInv (splashUpdate s a) := by
  obtain ⟨hf, hc⟩ := h
  have hlen : s.logoFrames.length = 7 := by rw [hf]; rfl
  cases a with
  | tick =>
    simp only [splashUpdate]
    by_cases ha : s.isAnimated = true
    · rw [if_pos ha]
      by_cases hge : s.counter + 1 ≥ s.logoFrames.length
      · rw [if_pos hge]
        exact ⟨hf, by show s.logoFrames.length - 1 < 7; rw [hlen]; omega⟩
      · rw [if_neg hge]
        rw [hlen] at hge
        exact ⟨hf, by show s.counter + 1 < 7; omega⟩
    · rw [if_neg ha]
      exact ⟨hf, hc⟩
  | message map =>
    simp only [splashUpdate]
    cases map.lookup "startup" with
    | none => exact ⟨hf, hc⟩
    | some m => exact ⟨hf, hc⟩
  | _ => exact ⟨hf, hc⟩

theorem splashInv_run (acts : List Action) :
    ∀ s, SplashInv s → SplashInv (splashRun acts s) := by
  induction acts with
  | nil => intro s h; exact h
  | cons a acts ih =>
    intro s h
    exact ih (splashUpdate s a) (splashInv_step s a h)

theorem splashCounter_frozen_step (s : SplashState) (a : Action)
    (hinv : SplashInv s) (h6 : s.counter = 6) :
    (splashUpdate s a).counter = 6 := by
  obtain ⟨hf, -⟩ := hinv
  have hlen : s.logoFrames.length = 7 := by rw [hf]; rfl
  cases a with
  | tick =>
    simp only [splashUpdate]
    by_cases ha : s.isAnimated = true
    · rw [if_pos ha]
      by_cases hge : s.counter + 1 ≥ s.logoFrames.length
      · rw [if_pos hge]
        show s.logoFrames.length - 1 = 6
        rw [hlen]
      · rw [if_neg hge]
        rw [hlen, h6] at hge
        omega
    · rw [if_neg ha]
      exact h6
  | message map =>
    simp only [splashUpdate]
    cases map.lookup "startup" with
    | none => exact h6
    | some m => exact h6
  | _ => exact h6

theorem splashCounter_frozen (acts : List Action) :
    ∀ s, SplashInv s → s.counter = 6 → (splashRun acts s).counter = 6 := by
  induction acts with
  | nil => intro s _ h6; exact h6
  | cons a acts ih =>
    intro s hinv h6
    exact ih (splashUpdate s a) (splashInv_step s a hinv)
      (splashCounter_frozen_step s a hinv h6)

/-- Counterexample for C10: after exactly six `Tick` updates the counter of
both `LoginComponent` and `LoginSplash` has reached `logo_frames.len() - 1`
(that is, `6`), yet `is_animated` is still `true` — the flag is only cleared
one `Tick` later, when the increment overshoots and is clamped back. -/
theorem c10_animated_at_last_frame_cex :
    (loginRun (List.replicate 6 Action.tick) loginNew).counter =
        (loginRun (List.replicate 6 Action.tick) loginNew).logoFrames.length - 1 ∧
      (loginRun (List.replicate 6 Action.tick) loginNew).isAnimated = true ∧
      (splashRun (List.replicate 6 Action.tick) splashNew).counter =
        (splashRun (List.replicate 6 Action.tick) splashNew).logoFrames.length - 1 ∧
      (splashRun (List.replicate 6 Action.tick) splashNew).isAnimated = true := by
  refine ⟨rfl, rfl, rfl, rfl⟩

/-- C10 (amended): for every state of `LoginComponent` or `LoginSplash`
reachable from `new()` by any sequence of `update` calls, `counter` is
strictly below `logo_frames.len()` (which is `7`), so the indexing
`logo_frames[counter]` in `draw` is always in bounds; and once `counter` has
reached `logo_frames.len() - 1 = 6` it never changes again (though
`is_animated` is still `true` in the state where the counter first arrives
at `6`, and is cleared only by the following `Tick`). -/
theorem c10_counter_in_bounds :
    (∀ acts, (loginRun acts loginNew).counter <
      (loginRun acts loginNew).logoFrames.length) ∧
      (∀ acts acts', (loginRun acts loginNew).counter = 6 →
        (loginRun acts' (loginRun acts loginNew)).counter = 6) ∧
      (∀ acts, (splashRun acts splashNew).counter <
        (splashRun acts splashNew).logoFrames.length) ∧
      (∀ acts acts', (splashRun acts splashNew).counter = 6 →
        (splashRun acts' (splashRun acts splashNew)).counter = 6) := by
  refine ⟨?_, ?_, ?_, ?_⟩
  · intro acts
    obtain ⟨hf, hc⟩ := loginInv_run acts loginNew loginInv_new
    rw [hf]
    exact hc
  · intro acts acts' h6
    exact loginCounter_frozen acts' (loginRun acts loginNew)
      (loginInv_run acts loginNew loginInv_new) h6
  · intro acts
    obtain ⟨hf, hc⟩ := splashInv_run acts splashNew splashInv_new
    rw [hf]
    exact hc
  · intro acts acts' h6
    exact splashCounter_frozen acts' (splashRun acts splashNew)
      (splashInv_run acts splashNew splashInv_new) h6

/-- Witness for C10: after six `Tick`s the login counter is `6`, and one more
`Tick` leaves it at `6`. -/
theorem c10_counter_in_bounds_witness :
    (loginRun [Action.tick] (loginRun (List.replicate 6 Action.tick) loginNew)).counter = 6 :=
  c10_counter_in_bounds.2.1 (List.replicate 6 Action.tick) [Action.tick] rfl

/-! ## Progress accumulation -/

/-- The `if count >= total {1.0} else {count/total}` assignment of
`update_progress` is exactly `min 1 (count/total)` for a positive total. -/
theorem ratio_min (n t : Nat) (ht : 0 < t) :
    (if t ≤ n then (1 : ℚ) else (n : ℚ) / (t : ℚ)) =
      min 1 ((n : ℚ) / (t : ℚ)) := by
  have ht' : (0 : ℚ) < (t : ℚ) := by exact_mod_cast ht
  split
  next h =>
    rw [min_eq_left]
    exact (one_le_div ht').mpr (by exact_mod_cast h)
  next h =>
    rw [min_eq_right]
    exact le_of_lt ((div_lt_one ht').mpr (by exact_mod_cast Nat.lt_of_not_le h))

/-- A `Tick` leaves the gauge-relevant fields of `LoginComponent` alone. -/
theorem loginUpdate_tick_gauge (s : LoginState) :
    (loginUpdate s Action.tick).progress = s.progress ∧
      (loginUpdate s Action.tick).loadingMessages = s.loadingMessages ∧
      (loginUpdate s Action.tick).totalLoadingMessages = s.totalLoadingMessages := by
  simp only [loginUpdate]
  by_cases ha : s.isAnimated = true
  · rw [if_pos ha]
    by_cases hge : s.counter + 1 ≥ s.logoFrames.length
    · rw [if_pos hge]; exact ⟨rfl, rfl, rfl⟩
    · rw [if_neg hge]; exact ⟨rfl, rfl, rfl⟩
  · rw [if_neg ha]; exact ⟨rfl, rfl, rfl⟩

/-- The gauge invariant of `LoginComponent`: the expected total is positive
and `progress` equals `min 1 (messages_received / expected_total)`. -/
def ProgressInv (s : LoginState) : Prop :=
  0 < s.totalLoadingMessages ∧
    s.progress =
      min 1 ((s.loadingMessages.length : ℚ) / (s.totalLoadingMessages : ℚ))

theorem progressInv_new : ProgressInv loginNew := by
  constructor
  · simp [loginNew]
  · simp [loginNew]

theorem progressInv_step (s : LoginState) (a : Action) (h : ProgressInv s) :
    ProgressInv (loginUpdate s a) := by
  obtain ⟨ht, hp⟩ := h
  cases a with
  | tick =>
    obtain ⟨h1, h2, h3⟩ := loginUpdate_tick_gauge s
    exact ⟨by rw [h3]; exact ht, by rw [h1, h2, h3]; exact hp⟩
  | message map =>
    simp only [loginUpdate]
    cases map.lookup "startup" with
    | none => exact ⟨ht, hp⟩
    | some m =>
      simp only
      set t : LoginState := { s with loadingMessages := s.loadingMessages ++ [m] }
      have htt : t.totalLoadingMessages = s.totalLoadingMessages := rfl
      have htm : t.loadingMessages.length = s.loadingMessages.length + 1 := by
        simp [t]
      obtain ⟨-, -, -, hm4, hm5⟩ := updateProgress_fields t
      refine ⟨by rw [hm5, htt]; exact ht, ?_⟩
      have hprog : (updateProgress t).progress =
          if t.totalLoadingMessages ≤ t.loadingMessages.length then (1 : ℚ)
          else (t.loadingMessages.length : ℚ) / (t.totalLoadingMessages : ℚ) := by
        simp only [updateProgress]
        split <;> rfl
      rw [hprog, hm4, hm5, ratio_min t.loadingMessages.length
        t.totalLoadingMessages (by rw [htt]; exact ht)]
  | _ => exact ⟨ht, hp⟩

theorem progressInv_run (acts : List Action) :
    ∀ s, ProgressInv s → ProgressInv (loginRun acts s) := by
  induction acts with
  | nil => intro s h; exact h
  | cons a acts ih =>
    intro s h
    exact ih (loginUpdate s a) (progressInv_step s a h)

/-- `update` never shrinks the received-message count and never changes the
expected total. -/
theorem loginUpdate_gauge_mono (s : LoginState) (a : Action) :
    (loginUpdate s a).totalLoadingMessages = s.totalLoadingMessages ∧
      s.loadingMessages.length ≤ (loginUpdate s a).loadingMessages.length := by
  cases a with
  | tick =>
    obtain ⟨-, h2, h3⟩ := loginUpdate_tick_gauge s
    exact ⟨h3, by rw [h2]⟩
  | message map =>
    simp only [loginUpdate]
    cases map.lookup "startup" with
    | none => exact ⟨rfl, le_refl _⟩
    | some m =>
      simp only
      set t : LoginState := { s with loadingMessages := s.loadingMessages ++ [m] }
      obtain ⟨-, -, -, hm4, hm5⟩ := updateProgress_fields t
      constructor
      · rw [hm5]
      · rw [hm4]
        simp [t]
  | _ => exact ⟨rfl, le_refl _⟩

set_option maxRecDepth 4000 in
/-- Counterexample for C4: `LoginGauge::update` does not follow the
`min(1.0, messages_received / expected_total)` formula — it adds the binary64
literal `0.1` while `progress < 1.0`, and since ten such additions land at
`0.9999999999999999 < 1.0`, the eleventh startup `Message` pushes the ratio to
`1.0999999999999999`, strictly above `1.0`. -/
theorem c4_gauge_exceeds_one_cex :
    F64.lt F64.one
        (gaugeRun (List.replicate 11 (Action.message [("startup", "x")])) F64.zero) =
        true ∧
      gaugeRun (List.replicate 11 (Action.message [("startup", "x")])) F64.zero =
        ⟨4953959590107545, 52⟩ := by
  decide

/-- C4 (amended): for `LoginComponent` the claim holds exactly — the progress
derived from accumulating startup `Message` actions always equals
`min(1.0, messages_received / expected_total)`, is monotonically
non-decreasing under any update, and once at least `expected_total` (= 3)
startup messages arrived it is exactly `1.0`, never above. `LoginGauge` (and
`Home`), however, use the divergent `+= 0.1`-while-below-`1.0` rule, which
overshoots `1.0` (see the counterexample). -/
theorem c4_login_progress_formula :
    (∀ acts, (loginRun acts loginNew).progress =
      min 1 (((loginRun acts loginNew).loadingMessages.length : ℚ) /
        ((loginRun acts loginNew).totalLoadingMessages : ℚ))) ∧
      (∀ acts a, (loginRun acts loginNew).progress ≤
        (loginUpdate (loginRun acts loginNew) a).progress) ∧
      (∀ acts, (loginRun acts loginNew).totalLoadingMessages ≤
          (loginRun acts loginNew).loadingMessages.length →
        (loginRun acts loginNew).progress = 1) := by
  refine ⟨?_, ?_, ?_⟩
  · intro acts
    exact (progressInv_run acts loginNew progressInv_new).2
  · intro acts a
    set s := loginRun acts loginNew with hs
    have hinv := progressInv_run acts loginNew progressInv_new
    have hinv' := progressInv_step s a hinv
    obtain ⟨hmt, hml⟩ := loginUpdate_gauge_mono s a
    rw [hinv.2, hinv'.2, hmt]
    have ht' : (0 : ℚ) < (s.totalLoadingMessages : ℚ) := by
      exact_mod_cast hinv.1
    exact min_le_min (le_refl 1)
      ((div_le_div_iff_of_pos_right ht').mpr (by exact_mod_cast hml))
  · intro acts hge
    have hinv := progressInv_run acts loginNew progressInv_new
    rw [hinv.2]
    have ht' : (0 : ℚ) < ((loginRun acts loginNew).totalLoadingMessages : ℚ) := by
      exact_mod_cast hinv.1
    rw [min_eq_left]
    exact (one_le_div ht').mpr (by exact_mod_cast hge)

/-- Witness for C4 (amended): four startup messages (one more than the
expected total of three) leave `LoginComponent`'s progress at exactly `1`. -/
theorem c4_login_progress_formula_witness :
    (loginRun (List.replicate 4 (Action.message [("startup", "go")])) loginNew).progress = 1 :=
  c4_login_progress_formula.2.2
    (List.replicate 4 (Action.message [("startup", "go")])) (by decide)

/-! ## Event-loop lemmas -/

theorem updateAll_trace_mem (cs : List Comp) :
    ∀ (i : Nat) (a : Action) (st : LoopState) (e : Event), e ∈ st.trace →
      e ∈ (updateAll cs i a st).trace := by
  induction cs with
  | nil => intro i a st e h; exact h
  | cons c rest ih =>
    intro i a st e h
    exact ih (i + 1) a _ e (by simp [h])

theorem updateAll_queue_mem (cs : List Comp) :
    ∀ (i : Nat) (a b : Action) (st : LoopState), b ∈ st.queue →
      b ∈ (updateAll cs i a st).queue := by
  induction cs with
  | nil => intro i a b st h; exact h
  | cons c rest ih =>
    intro i a b st h
    exact ih (i + 1) a b _ (by simp [h])

theorem drawPass_trace_mem (cs : List Comp) :
    ∀ (i : Nat) (st : LoopState) (e : Event), e ∈ st.trace →
      e ∈ (drawPass cs i st).trace := by
  induction cs with
  | nil => intro i st e h; exact h
  | cons c rest ih =>
    intro i st e h
    exact ih (i + 1) _ e (by simp [h])

theorem drawPass_queue_mem (cs : List Comp) :
    ∀ (i : Nat) (b : Action) (st : LoopState), b ∈ st.queue →
      b ∈ (drawPass cs i st).queue := by
  induction cs with
  | nil => intro i b st h; exact h
  | cons c rest ih =>
    intro i b st h
    exact ih (i + 1) b _ (by simp [h])

/-- Every component of a draw pass gets drawn (its `drew` event is traced). -/
theorem drawPass_drew (cs : List Comp) :
    ∀ (j i0 : Nat) (st : LoopState), j < cs.length →
      Event.drew (i0 + j) ∈ (drawPass cs i0 st).trace := by
  induction cs with
  | nil => intro j i0 st h; simp at h
  | cons c rest ih =>
    intro j i0 st h
    cases j with
    | zero =>
      exact drawPass_trace_mem rest (i0 + 1) _ (Event.drew (i0 + 0)) (by simp)
    | succ j =>
      have : i0 + (j + 1) = (i0 + 1) + j := by omega
      rw [this]
      exact ih j (i0 + 1) _ (by simpa using Nat.lt_of_succ_lt_succ h)

/-- A failing component of a draw pass gets its `Error` action enqueued. -/
theorem drawPass_err (cs : List Comp) :
    ∀ (j i0 : Nat) (st : LoopState) (h : j < cs.length) (e : String),
      (cs.get ⟨j, h⟩).drawErr = some e →
      Action.error ("Failed to draw: " ++ e) ∈ (drawPass cs i0 st).queue := by
  induction cs with
  | nil => intro j i0 st h; simp at h
  | cons c rest ih =>
    intro j i0 st h e he
    cases j with
    | zero =>
      refine drawPass_queue_mem rest (i0 + 1) _ _ ?_
      simp at he
      simp [he]
    | succ j =>
      exact ih j (i0 + 1) _ (Nat.lt_of_succ_lt_succ h) e he

/-- Forwarding an action to components whose `update` uniformly returns `None`
only appends the `updated` events and leaves the queue alone. -/
theorem updateAll_none (cs : List Comp) (a : Action)
    (h : ∀ c ∈ cs, c.update a = none) :
    ∀ (i : Nat) (st : LoopState), updateAll cs i a st =
      { st with trace := st.trace ++
          (List.range cs.length).map (fun j => Event.updated (i + j) a) } := by
  induction cs with
  | nil => intro i st; simp [updateAll]
  | cons c rest ih =>
    intro i st
    have hc : c.update a = none := h c (by simp)
    have hrest : ∀ c ∈ rest, c.update a = none := fun c hc' => h c (by simp [hc'])
    show updateAll rest (i + 1) a _ = _
    rw [ih hrest (i + 1)]
    have hmap : (List.range (rest.length + 1)).map
          (fun j => Event.updated (i + j) a) =
        Event.updated (i + 0) a ::
          (List.range rest.length).map (fun j => Event.updated (i + 1 + j) a) := by
      rw [List.range_succ_eq_map, List.map_cons, List.map_map]
      refine congrArg _ ?_
      refine List.map_congr_left ?_
      intro x _
      show Event.updated (i + (x + 1)) a = Event.updated (i + 1 + x) a
      congr 1
      omega
    simp [hc, hmap]

/-- Unfolding of one drain iteration on a non-empty queue. -/
theorem drain_cons (cs : List Comp) (fuel : Nat) (a : Action) (rest : List Action)
    (st : LoopState) (h : st.queue = a :: rest) :
    drain cs (fuel + 1) st =
      drain cs fuel (processAction cs
        { st with queue := rest, trace := st.trace ++ [Event.dequeued a] } a) := by
  rw [drain, h]

/-- A drain on an empty queue is over, whatever the fuel. -/
theorem drain_nil (cs : List Comp) (fuel : Nat) (st : LoopState)
    (h : st.queue = []) : drain cs fuel st = some st := by
  cases fuel <;> (rw [drain, h])

/-- Processing one action through a single component that never fails to draw:
the queue is extended exactly by the component's reaction, and the trace only
grows. -/
theorem processAction_single (u : Action → Option Action) (st : LoopState)
    (a : Action) :
    (processAction [⟨u, none⟩] st a).queue = st.queue ++ (u a).toList ∧
      ∀ e ∈ st.trace, e ∈ (processAction [⟨u, none⟩] st a).trace := by
  cases a <;>
    exact ⟨by simp [processAction, builtinStep, updateAll, drawPass],
      by intro e he; simp [processAction, builtinStep, updateAll, drawPass, he]⟩

/-- C9: during a draw pass triggered by `Render` (the `Resize` arm runs the
identical pass), every component in registration order is drawn — a single
draw failure never aborts the pass — and each failing component's error is
converted into an `Error` action and re-enqueued. -/
theorem c9_draw_errors_do_not_abort (cs : List Comp) (st : LoopState) (i : Nat)
    (h : i < cs.length) :
    Event.drew i ∈ (processAction cs st Action.render).trace ∧
      ∀ e, (cs.get ⟨i, h⟩).drawErr = some e →
        Action.error ("Failed to draw: " ++ e) ∈
          (processAction cs st Action.render).queue := by
  constructor
  · exact updateAll_trace_mem cs 0 Action.render _ _
      (by simpa using drawPass_drew cs i 0 st h)
  · intro e he
    exact updateAll_queue_mem cs 0 Action.render _ _
      (drawPass_err cs i 0 st h e he)

/-- Witness for C9: two components, the first failing to draw with `"boom"` —
both are drawn and the `Error` action for the failure is enqueued. -/
theorem c9_draw_errors_do_not_abort_witness :
    (Event.drew 0 ∈
        (processAction drawDemoComps (initState []) Action.render).trace ∧
      Action.error ("Failed to draw: " ++ "boom") ∈
        (processAction drawDemoComps (initState []) Action.render).queue) ∧
      Event.drew 1 ∈
        (processAction drawDemoComps (initState []) Action.render).trace :=
  ⟨⟨(c9_draw_errors_do_not_abort drawDemoComps (initState []) 0 (by decide)).1,
    (c9_draw_errors_do_not_abort drawDemoComps (initState []) 0 (by decide)).2
      "boom" rfl⟩,
    (c9_draw_errors_do_not_abort drawDemoComps (initState []) 1 (by decide)).1⟩

/-- C5: when a `Quit` action is dequeued, the loop marks `should_quit` and
synchronously runs the session teardown before continuing the drain; every
registered component still receives the `Quit` action via `update` (the
components here mirror the repository's, whose `update` always returns
`None`); teardown happens exactly once for the single dispatched `Quit`; and
the iteration reaches the stopped state only after the teardown event. -/
theorem c5_quit_teardown (cs : List Comp)
    (h : ∀ c ∈ cs, ∀ a, c.update a = none) :
    ∃ st, runIteration cs 1 (initState [Action.quit]) = some st ∧
      st.trace.count Event.teardown = 1 ∧
      (∀ i, i < cs.length → Event.updated i Action.quit ∈ st.trace) ∧
      ∃ pre, st.trace = pre ++ [Event.stopped] ∧ Event.teardown ∈ pre := by
  have h' : ∀ c ∈ cs, c.update Action.quit = none :=
    fun c hc => h c hc Action.quit
  refine ⟨{ queue := [], shouldQuit := true, shouldSuspend := false, lastTickKeyEvents := [], trace := ([Event.dequeued Action.quit, Event.teardown] ++ (List.range cs.length).map (fun j => Event.updated (0 + j) Action.quit)) ++ [Event.stopped] }, ?_, ?_, ?_, ?_⟩
  · rw [runIteration]
    rw [drain_cons cs 0 Action.quit [] (initState [Action.quit]) rfl]
    show (drain cs 0 (updateAll cs 0 Action.quit { queue := [], shouldQuit := true, shouldSuspend := false, lastTickKeyEvents := [], trace := [Event.dequeued Action.quit, Event.teardown] })).map loopTail = _
    rw [updateAll_none cs Action.quit h' 0 { queue := [], shouldQuit := true, shouldSuspend := false, lastTickKeyEvents := [], trace := [Event.dequeued Action.quit, Event.teardown] }]
    rw [drain_nil cs 0 _ rfl]
    rfl
  · show (([Event.dequeued Action.quit, Event.teardown] ++
      (List.range cs.length).map (fun j => Event.updated (0 + j) Action.quit)) ++
        [Event.stopped]).count Event.teardown = 1
    have hzero : ((List.range cs.length).map
        (fun j => Event.updated j Action.quit)).count Event.teardown = 0 := by
      refine List.count_eq_zero.mpr ?_
      intro hmem
      simp [List.mem_map] at hmem
    simp [List.count_append, hzero, List.count_cons]
  · intro i hi
    show Event.updated i Action.quit ∈
      ([Event.dequeued Action.quit, Event.teardown] ++
        (List.range cs.length).map (fun j => Event.updated (0 + j) Action.quit)) ++
          [Event.stopped]
    have hm : Event.updated i Action.quit ∈ (List.range cs.length).map
        (fun j => Event.updated (0 + j) Action.quit) :=
      List.mem_map.mpr ⟨i, by simpa using hi, by simp⟩
    exact List.mem_append.mpr (Or.inl (List.mem_append.mpr (Or.inr hm)))
  · exact ⟨[Event.dequeued Action.quit, Event.teardown] ++
      (List.range cs.length).map (fun j => Event.updated (0 + j) Action.quit),
      rfl, by simp⟩

/-- Witness for C5: three registered components (each answering `None`, like
every component in the repository) — the scenario of spec section 8. -/
theorem c5_quit_teardown_witness :
    ∃ st, runIteration quietComps 1 (initState [Action.quit]) = some st ∧
      st.trace.count Event.teardown = 1 ∧
      (∀ i, i < quietComps.length → Event.updated i Action.quit ∈ st.trace) ∧
      ∃ pre, st.trace = pre ++ [Event.stopped] ∧ Event.teardown ∈ pre :=
  c5_quit_teardown quietComps
    (by
      intro c hc a
      have := List.eq_of_mem_replicate hc
      rw [this])

/-- Counterexample for C1: a single registered component that reacts to a
`Message` action with an `Error` action. One drain pass started on the queue
`[Message]` processes (dequeues) the reaction `Error "reacted"` within that
same pass — the pass only ends when the queue is empty, so a component's
returned action is visible to processing in the drain pass that produced it,
not delayed to the next one. -/
theorem c1_one_generation_lag_cex :
    (drain [compReact] 2 (initState [Action.message []])).isSome = true ∧
      Event.dequeued (Action.error "reacted") ∈
        drainTrace [compReact] 2 [Action.message []] := by
  decide

/-- C1 (amended): an action returned by a component's `update` during a drain
pass is appended to the same queue and is dequeued and processed later within
the same drain pass (the pass runs until the queue is empty), not in the next
one. Stated for one registered component with reaction `b` to `a` (and no
further reaction), with fuel `2` for the two dequeues of the pass. -/
theorem c1_reaction_same_pass (u : Action → Option Action) (a b : Action)
    (h1 : u a = some b) (h2 : u b = none) :
    ∃ st, drain [⟨u, none⟩] 2 (initState [a]) = some st ∧
      Event.dequeued b ∈ st.trace ∧ st.queue = [] := by
  have hstep1 : drain [⟨u, none⟩] 2 (initState [a]) =
      drain [⟨u, none⟩] 1 (processAction [⟨u, none⟩] { queue := [], shouldQuit := false, shouldSuspend := false, lastTickKeyEvents := [], trace := [Event.dequeued a] } a) :=
    drain_cons _ 1 a [] _ rfl
  obtain ⟨hXq, hXt⟩ := processAction_single u { queue := [], shouldQuit := false, shouldSuspend := false, lastTickKeyEvents := [], trace := [Event.dequeued a] } a
  rw [h1] at hXq
  set X := processAction [⟨u, none⟩] { queue := [], shouldQuit := false, shouldSuspend := false, lastTickKeyEvents := [], trace := [Event.dequeued a] } a with hXdef
  have hXq' : X.queue = [b] := hXq
  have hstep2 : drain [⟨u, none⟩] 1 X =
      drain [⟨u, none⟩] 0 (processAction [⟨u, none⟩] { X with queue := [], trace := X.trace ++ [Event.dequeued b] } b) :=
    drain_cons _ 0 b [] X hXq'
  obtain ⟨hYq, hYt⟩ := processAction_single u { X with queue := [], trace := X.trace ++ [Event.dequeued b] } b
  rw [h2] at hYq
  have hYq' : (processAction [⟨u, none⟩] { X with queue := [], trace := X.trace ++ [Event.dequeued b] } b).queue = [] := by
    rw [hYq]
    rfl
  refine ⟨_, by rw [hstep1, hstep2, drain_nil _ 0 _ hYq'], ?_, hYq'⟩
  exact hYt (Event.dequeued b) (by simp)

/-- Witness for C1 (amended): the reacting component processes its own
`Error "reacted"` reaction inside the same drain pass. -/
theorem c1_reaction_same_pass_witness :
    ∃ st, drain [⟨compReact.update, none⟩] 2
        (initState [Action.message []]) = some st ∧
      Event.dequeued (Action.error "reacted") ∈ st.trace ∧ st.queue = [] :=
  c1_reaction_same_pass compReact.update (Action.message [])
    (Action.error "reacted") rfl rfl

end Stash
